import Mathlib

/-!
Shallow embedding of the DER codec in dlls/crypt32/encode.c and proofs
about it.

Conventions used throughout:

* C byte buffers are modelled as `List Nat`; a read of byte `i` goes
  through `byteAt`, which truncates to the BYTE range (a C `BYTE` read can
  only yield a value below 256) and yields 0 past the end of the list
  (reads the C would perform out of bounds are modelled as reads of
  zeroed memory).
* DWORD arithmetic is `Nat` arithmetic with an explicit `% 2 ^ 32` where
  the 32-bit wraparound matters; the signed 32-bit result of the integer
  decoder is recovered with `toInt32`.
* a null pointer argument is an `Option` that is `none`; the two-phase
  output contract is modelled by a `Bool`/`Option` flag selecting Phase A
  (null output pointer, sizing) or Phase B (writing), together with the
  caller's size cell passed as a `Nat`.
* win32 error codes are modelled by the inductive `Err`; a C function
  returning FALSE with SetLastError e is modelled as `Except.error e`,
  a TRUE return as `Except.ok` of the observable result.
* external collaborators (registry store, loader, FILETIME conversions)
  are outside the repository; where a function only forwards to them the
  embedding records the forwarded request rather than its effect.
-/

/-- Error taxonomy: the last-error codes set by encode.c, by constructor:
moreData is ERROR_MORE_DATA (the BufferTooSmall of the spec), eod is
CRYPT_E_ASN1_EOD, badTag is CRYPT_E_ASN1_BADTAG, corrupt is
CRYPT_E_ASN1_CORRUPT, tooLarge is CRYPT_E_ASN1_LARGE, badEncode is
CRYPT_E_BAD_ENCODE, asn1Error is CRYPT_E_ASN1_ERROR, invalidParameter is
ERROR_INVALID_PARAMETER, notFound is ERROR_FILE_NOT_FOUND,
accessViolation is STATUS_ACCESS_VIOLATION, unimplemented covers the
FIXME paths for unsupported string kinds, internalError is
CRYPT_E_ASN1_INTERNAL. -/
inductive Err where
  | moreData
  | eod
  | badTag
  | corrupt
  | tooLarge
  | badEncode
  | asn1Error
  | invalidParameter
  | notFound
  | accessViolation
  | unimplemented
  | internalError
  deriving DecidableEq, Repr

instance {α β : Type} [DecidableEq α] [DecidableEq β] : DecidableEq (Except α β) := fun x y =>
  match x, y with
  | .ok a, .ok b =>
      if h : a = b then .isTrue (by rw [h]) else .isFalse (by intro hc; cases hc; exact h rfl)
  | .error a, .error b =>
      if h : a = b then .isTrue (by rw [h]) else .isFalse (by intro hc; cases hc; exact h rfl)
  | .ok _, .error _ => .isFalse (by intro hc; cases hc)
  | .error _, .ok _ => .isFalse (by intro hc; cases hc)

/-- Reads byte i of a C buffer modelled as a list: BYTE-typed memory, so
the value is below 256; positions past the end of the list model memory
the C would read out of bounds and are taken to be zero. -/
def byteAt (input : List Nat) (i : Nat) : Nat := input.getD i 0 % 256

/-- Result of an encoder call: Phase A stores the needed size in the
caller's size cell, Phase B writes the encoded bytes. -/
inductive EncOut where
  | sized (bytesNeeded : Nat)
  | written (bytes : List Nat)
  deriving DecidableEq, Repr

/-- The decoded month/day/... record filled in by the time decoders.
Mirrors the SYSTEMTIME fields the codec touches (wDayOfWeek is never
read or written by the parsers and is omitted). -/
structure SYSTEMTIME where
  wYear : Nat
  wMonth : Nat
  wDay : Nat
  wHour : Nat
  wMinute : Nat
  wSecond : Nat
  wMilliseconds : Nat
  deriving DecidableEq, Repr

/-- Result of a decoder call: Phase A stores the needed size, Phase B
produces the decoded value.  value is the signed 32-bit result of the
fixed-width INTEGER decoder, uvalue the unsigned result of the
ENUMERATED decoder, and time the SYSTEMTIME assembled by the time
decoders (its conversion to a FILETIME by SystemTimeToFileTime is
external to the repository and not modelled). -/
inductive DecOut where
  | sized (bytesNeeded : Nat)
  | value (v : Int)
  | uvalue (v : Nat)
  | time (st : SYSTEMTIME)
  deriving DecidableEq, Repr

/-- Number of significant bytes of a DWORD length, translated from the
counting loop in CRYPT_EncodeLen (for temp = len; !(temp & 0xff000000);
temp <<= 8, significantBytes--), which yields the byte width of len. -/
def significantBytesOf (len : Nat) : Nat :=
  if len < 0x100 then 1
  else if len < 0x10000 then 2
  else if len < 0x1000000 then 3
  else 4

/-- Size in bytes of the DER length octets CRYPT_EncodeLen would emit for
len: this is the sizing path of CRYPT_EncodeLen (pbEncoded = NULL). -/
def CRYPT_EncodeLenSize (len : Nat) : Nat :=
  if len ≤ 0x7f then 1 else significantBytesOf len + 1

/-- Bytes of the DER length octets emitted by the writing path of
CRYPT_EncodeLen: short form for len up to 0x7f, otherwise 0x80 plus the
count of significant bytes followed by len big-endian. -/
def CRYPT_EncodeLen (len : Nat) : List Nat :=
  if len ≤ 0x7f then [len]
  else
    let n := significantBytesOf len
    (0x80 + n) :: (List.range n).map (fun i => len >>> (8 * (n - 1 - i)) % 256)

/-- Big-endian assembly loop of CRYPT_GetLen and the integer decoders:
count iterations of out = out << 8 | byte on a DWORD accumulator,
reading successive bytes of input starting at pos. -/
def loadWord (input : List Nat) : Nat → Nat → Nat → Nat
  | _, 0, acc => acc
  | pos, n + 1, acc => loadWord input (pos + 1) n ((acc * 256 + byteAt input pos) % 2 ^ 32)

/-- Plain big-endian value of the count bytes of input starting at pos
(no 32-bit truncation); used to state what the loops above compute. -/
def beVal (input : List Nat) : Nat → Nat → Nat
  | _, 0 => 0
  | pos, n + 1 => byteAt input pos * 2 ^ (8 * n) + beVal input (pos + 1) n

/-- Signed reinterpretation of a 32-bit word. -/
def toInt32 (w : Nat) : Int :=
  if w < 2 ^ 31 then (w : Int) else (w : Int) - 2 ^ 32

/-- CRYPT_GetLen: decodes the DER length octets of the element stored in
input (input 0 is the tag).  Long form: lenLen = GET_LEN_BYTES(input 1)
= 1 + low 7 bits; the code rejects lenLen above sizeof(DWORD), requires
lenLen + 2 bytes available, then runs the assembly loop lenLen times
(reading one byte more than the length field holds) and finally checks
out + lenLen + 1 against cbEncoded where the loop has left the BYTE
lenLen at 255, so the check is out + 256 over 2 ^ 32 against the byte
count. -/
def CRYPT_GetLen (input : List Nat) : Except Err Nat :=
  let cbEncoded := input.length
  if cbEncoded ≤ 1 then .error .eod
  else if byteAt input 1 ≤ 0x7f then .ok (byteAt input 1)
  else
    let lenLen := 1 + (byteAt input 1 &&& 0x7f)
    if lenLen > 4 then .error .tooLarge
    else if lenLen + 2 > cbEncoded then .error .corrupt
    else
      let out := loadWord input 2 lenLen 0
      if (out + 255 + 1) % 2 ^ 32 > cbEncoded then .error .eod
      else .ok out

/-- Dotted-decimal object identifier in the parsed form the C obtains
with sscanf: the two leading arcs matched by the %d.%d. prefix and the
remaining arcs read one %d at a time.  Arcs are assumed to fit in 32
bits, as the comment in CRYPT_AsnEncodeOid states. -/
structure OidArcs where
  arc1 : Nat
  arc2 : Nat
  rest : List Nat
  deriving DecidableEq, Repr

/-- Encoded size of one trailing OID arc, from the threshold chain in
CRYPT_AsnEncodeOid (both the sizing and the writing pass use it). -/
def oidArcSize (v : Nat) : Nat :=
  if v ≥ 0x10000000 then 5
  else if v ≥ 0x200000 then 4
  else if v ≥ 0x4000 then 3
  else if v ≥ 0x80 then 2
  else 1

/-- Base-128 bytes of one trailing OID arc: big-endian 7-bit groups, the
high bit set on every byte but the last, as emitted by the outBytes loop
of CRYPT_AsnEncodeOid. -/
def oidArcBytes (v : Nat) : List Nat :=
  let n := oidArcSize v
  (List.range n).map
    (fun i => (v >>> (7 * (n - 1 - i))) % 128 + if i < n - 1 then 128 else 0)

/-- Content octets of an OID: first octet 40 * arc1 + arc2 truncated to a
BYTE, then the base-128 encodings of the remaining arcs. -/
def oidContent (o : OidArcs) : List Nat :=
  ((40 * o.arc1 + o.arc2) % 256) :: (o.rest.map oidArcBytes).flatten

/-- Content length CRYPT_AsnEncodeOid computes in its sizing pass: one
byte for the leading pair plus the per-arc sizes (it equals the length
of oidContent). -/
def oidContentLen (o : OidArcs) : Nat := 1 + (o.rest.map oidArcSize).sum

/-- Full DER bytes (tag, length, content) CRYPT_AsnEncodeOid writes on
its success path; a NULL pszObjId yields an empty-content OID element. -/
def CRYPT_AsnEncodeOidDer (pszObjId : Option OidArcs) : List Nat :=
  match pszObjId with
  | none => [0x06, 0x00]
  | some o => 0x06 :: CRYPT_EncodeLen (oidContentLen o) ++ oidContent o

/-- CRYPT_AsnEncodeOid with its capacity handling.  pb is the current
content of the caller's output buffer (none for a Phase A sizing call),
cell the caller's size cell *pcbEncoded.  The Phase B capacity test in
the source is if (*pbEncoded < bytesNeeded) - it compares the first
content byte of the output buffer, not the size cell - and the final
*pcbEncoded = bytesNeeded store runs on every path that reaches it, so
the returned cell is bytesNeeded in all three outcomes.  The sscanf
failure paths cannot arise for an already parsed OidArcs. -/
def CRYPT_AsnEncodeOid (pszObjId : Option OidArcs) (pb : Option (List Nat)) (_cell : Nat) :
    Except Err EncOut × Nat :=
  let contentLen := match pszObjId with
    | some o => oidContentLen o
    | none => 0
  let lenBytes := match pszObjId with
    | some o => CRYPT_EncodeLenSize (oidContentLen o)
    | none => 1
  let bytesNeeded := contentLen + 1 + lenBytes
  match pb with
  | none => (.ok (.sized bytesNeeded), bytesNeeded)
  | some buf =>
      if buf.headD 0 % 256 < bytesNeeded then (.error .moreData, bytesNeeded)
      else (.ok (.written (CRYPT_AsnEncodeOidDer pszObjId)), bytesNeeded)

/-- String kinds of a CERT_NAME_VALUE / CERT_RDN_ATTR (dwValueType).
anyType is CERT_RDN_ANY_TYPE, which the encoder explicitly disallows;
other covers every dwValueType the switch does not handle (FIXME path). -/
inductive StringKind where
  | numeric
  | printable
  | ia5
  | anyType
  | other (dwValueType : Nat)
  deriving DecidableEq, Repr

/-- CERT_NAME_VALUE: a string kind plus the value blob (Value.pbData as
a byte list, Value.cbData its length). -/
structure CERT_NAME_VALUE where
  dwValueType : StringKind
  value : List Nat
  deriving DecidableEq, Repr

/-- CERT_RDN_ATTR: an OID plus the fields of a CERT_NAME_VALUE.  The C
layout trick (the tail of a CERT_RDN_ATTR from dwValueType on is a
CERT_NAME_VALUE) becomes an explicit record here. -/
structure CERT_RDN_ATTR where
  pszObjId : Option OidArcs
  dwValueType : StringKind
  value : List Nat
  deriving DecidableEq, Repr

/-- DER bytes written by CRYPT_AsnEncodeNameValue on success: the tag for
the string kind, the length octets for Value.cbData, then the value
bytes verbatim.  CERT_RDN_ANY_TYPE is rejected with
ERROR_INVALID_PARAMETER, unknown kinds fall into the FIXME path and
fail. -/
def CRYPT_AsnEncodeNameValue (v : CERT_NAME_VALUE) : Except Err (List Nat) :=
  match v.dwValueType with
  | .numeric => .ok (0x12 :: CRYPT_EncodeLen v.value.length ++ v.value)
  | .printable => .ok (0x13 :: CRYPT_EncodeLen v.value.length ++ v.value)
  | .ia5 => .ok (0x16 :: CRYPT_EncodeLen v.value.length ++ v.value)
  | .anyType => .error .invalidParameter
  | .other _ => .error .unimplemented

/-- DER bytes written by CRYPT_AsnEncodeRdnAttr on success: a
CONSTRUCTED SEQUENCE wrapping the OID element and the name-value
element.  The sizing pass adds the two child sizes (which equal the
lengths of the bytes the children later write) and prefixes tag and
length octets. -/
def CRYPT_AsnEncodeRdnAttr (attr : CERT_RDN_ATTR) : Except Err (List Nat) :=
  let oidBytes := CRYPT_AsnEncodeOidDer attr.pszObjId
  match CRYPT_AsnEncodeNameValue ⟨attr.dwValueType, attr.value⟩ with
  | .error e => .error e
  | .ok nvBytes =>
      .ok (0x30 :: CRYPT_EncodeLen (oidBytes.length + nvBytes.length) ++ oidBytes ++ nvBytes)

/-- BLOBComp, the qsort comparator of the RDN encoder: memcmp over the
first min(cbData) bytes, and on a tie the shorter blob is smaller.
Recursing byte by byte and ordering the empty list first is exactly that
comparison. -/
def BLOBComp : List Nat → List Nat → Ordering
  | [], [] => .eq
  | [], _ :: _ => .lt
  | _ :: _, [] => .gt
  | x :: xs, y :: ys =>
      if x < y then .lt else if y < x then .gt else BLOBComp xs ys

/-- Order induced by BLOBComp, the sort key of the SET OF encoder. -/
def blobLe (a b : List Nat) : Prop := BLOBComp a b ≠ Ordering.gt

instance : DecidableRel blobLe := fun a b => by
  unfold blobLe; exact inferInstance

/-- Sorting step of CRYPT_AsnEncodeRdn.  qsort with a comparator that is
zero only on identical byte strings has a unique sorted output, so any
sorting algorithm gives the bytes qsort produces; insertion sort over
blobLe is used here. -/
def blobSort (blobs : List (List Nat)) : List (List Nat) :=
  List.insertionSort blobLe blobs

/-- Per-attribute encoding loop of CRYPT_AsnEncodeRdn: each attribute is
encoded into its own scratch blob; the first failing child aborts. -/
def rdnBlobs : List CERT_RDN_ATTR → Except Err (List (List Nat))
  | [] => .ok []
  | attr :: rest =>
      match CRYPT_AsnEncodeRdnAttr attr with
      | .error e => .error e
      | .ok b =>
          match rdnBlobs rest with
          | .error e => .error e
          | .ok bs => .ok (b :: bs)

/-- DER bytes written by CRYPT_AsnEncodeRdn on success: encode every
attribute into its own blob, qsort the blobs with BLOBComp, then write
the CONSTRUCTED SET OF tag, the length octets for the summed child
sizes, and the blobs in sorted order. -/
def CRYPT_AsnEncodeRdn (rdn : List CERT_RDN_ATTR) : Except Err (List Nat) :=
  match rdnBlobs rdn with
  | .error e => .error e
  | .ok blobs =>
      let bytesNeeded := (blobs.map List.length).sum
      .ok (0x31 :: CRYPT_EncodeLen bytesNeeded ++ (blobSort blobs).flatten)

/-- Two ASCII digits as printed by a %02d field for values below 100
(every field the UTCTime formatter prints is below 100 on the paths the
encoder reaches: the year is reduced to a two-digit value first and the
remaining fields come from a valid SYSTEMTIME). -/
def twoDigits (n : Nat) : List Nat := [48 + n / 10 % 10, 48 + n % 10]

/-- Thirteen content characters the UTCTime formatter produces, in the
order of its snprintf argument list: two-digit year, then wDay, then
wMonth, then hour, minute, second, then the letter Z.  The element is
tag 0x17, length octet 13 (bytesNeeded - 2), then these characters. -/
def utcTimeBytes (st : SYSTEMTIME) : List Nat :=
  [0x17, 13] ++
    twoDigits (if st.wYear ≥ 2000 then st.wYear - 2000 else st.wYear - 1900) ++
    twoDigits st.wDay ++ twoDigits st.wMonth ++ twoDigits st.wHour ++
    twoDigits st.wMinute ++ twoDigits st.wSecond ++ [0x5a]

/-- CRYPT_AsnEncodeUtcTime for a timestamp already converted to its
SYSTEMTIME fields (FileTimeToSystemTime is external to the repository
and assumed to succeed).  The year range check runs before the Phase A
and Phase B branches; Phase B goes through CRYPT_EncodeEnsureSpace
without the allocation flag, which fails with ERROR_MORE_DATA when
bytesNeeded (15: tag, length octet, 13 characters) exceeds the size
cell.  An error return writes nothing to the output buffer. -/
def CRYPT_AsnEncodeUtcTime (st : SYSTEMTIME) (pb : Bool) (cell : Nat) : Except Err EncOut :=
  if st.wYear < 1950 ∨ st.wYear > 2050 then .error .badEncode
  else if pb = false then .ok (.sized 15)
  else if 15 > cell then .error .moreData
  else .ok (.written (utcTimeBytes st))

/-- CRYPT_BIT_BLOB: bit-string input of the encoder.  pbData is the byte
list (cbData is its length), cUnusedBits the count of unused trailing
bits, deliberately not restricted to the range below 8. -/
structure CRYPT_BIT_BLOB where
  pbData : List Nat
  cUnusedBits : Nat
  deriving DecidableEq, Repr

/-- CRYPT_AsnEncodeBits.  The source computes dataBytes =
(cbData * 8 - cUnusedBits) / 8 + 1 whenever cbData * 8 > cUnusedBits,
and a wire unused-bits octet of cUnusedBits / 8 when cUnusedBits is at
least 8 (cUnusedBits itself below 8).  The final content byte is masked
with the BYTE truncation of 0xff << unusedBits; the read of
pbData at index dataBytes - 1 can fall one byte past the blob (it does
when cUnusedBits is a positive multiple of 8 or zero), modelled as
reading a zero byte. -/
def CRYPT_AsnEncodeBits (blob : CRYPT_BIT_BLOB) (pb : Bool) (cell : Nat) : Except Err EncOut :=
  let cbData := blob.pbData.length
  let dataBytes :=
    if cbData * 8 > blob.cUnusedBits then (cbData * 8 - blob.cUnusedBits) / 8 + 1 else 0
  let unusedBits :=
    if cbData * 8 > blob.cUnusedBits then
      (if blob.cUnusedBits ≥ 8 then blob.cUnusedBits / 8 else blob.cUnusedBits) % 256
    else 0
  let bytesNeeded := 1 + CRYPT_EncodeLenSize (dataBytes + 1) + dataBytes + 1
  if pb = false then .ok (.sized bytesNeeded)
  else if bytesNeeded > cell then .error .moreData
  else
    let content :=
      if dataBytes = 0 then []
      else blob.pbData.take (dataBytes - 1) ++
        [byteAt blob.pbData (dataBytes - 1) &&& (0xff <<< unusedBits) % 256]
    .ok (.written (0x03 :: CRYPT_EncodeLen (dataBytes + 1) ++ unusedBits :: content))

/-- CRYPT_AsnDecodeInt.  pv is false for a Phase A sizing call (null
pvStructInfo), cell is the size cell checked by CRYPT_DecodeEnsureSpace
without the allocation flag.  The sign is taken from the high bit of the
first content byte, the value assembled by the shared shift-or loop on a
32-bit word starting from an all-ones word for negatives. -/
def CRYPT_AsnDecodeInt (input : List Nat) (pv : Bool) (cell : Nat) : Except Err DecOut :=
  if input.length = 0 then .error .eod
  else if pv = false then .ok (.sized 4)
  else if byteAt input 0 ≠ 0x02 then .error .badTag
  else if input.length ≤ 1 then .error .eod
  else if byteAt input 1 = 0 then .error .corrupt
  else if byteAt input 1 > 4 then .error .tooLarge
  else
    let init := if byteAt input 2 &&& 0x80 ≠ 0 then 2 ^ 32 - 1 else 0
    let w := loadWord input 2 (byteAt input 1) init
    if cell < 4 then .error .moreData
    else .ok (.value (toInt32 w))

/-- CRYPT_AsnDecodeEnumerated: like the integer decoder but for tag
0x0a, unsigned, and accepting up to sizeof(unsigned int) + 1 = 5 content
bytes so that an explicit leading sign byte fits; the result is the
32-bit word left by the shift-or loop. -/
def CRYPT_AsnDecodeEnumerated (input : List Nat) (pv : Bool) (cell : Nat) : Except Err DecOut :=
  if input.length = 0 then .error .eod
  else if pv = false then .ok (.sized 4)
  else if byteAt input 0 ≠ 0x0a then .error .badTag
  else if input.length ≤ 1 then .error .eod
  else if byteAt input 1 = 0 then .error .corrupt
  else if byteAt input 1 > 5 then .error .tooLarge
  else
    let w := loadWord input 2 (byteAt input 1) 0
    if cell < 4 then .error .moreData
    else .ok (.uvalue w)

/-- ASCII digit test of the parsers (isdigit on bytes). -/
def isAsciiDigit (b : Nat) : Bool := 48 ≤ b && b ≤ 57

/-- CRYPT_TIME_GET_DIGITS: reads up to numDigits decimal digits from the
front of bs, accumulating into acc; a non-digit before the count is
exhausted fails with CRYPT_E_ASN1_CORRUPT, running out of input merely
stops.  Returns the accumulated value and the unconsumed rest. -/
def getDigitsAux (acc : Nat) : List Nat → Nat → Except Err (Nat × List Nat)
  | bs, 0 => .ok (acc, bs)
  | [], _ + 1 => .ok (acc, [])
  | b :: bs, n + 1 =>
      if isAsciiDigit b then getDigitsAux (acc * 10 + (b - 48)) bs n
      else .error .corrupt

/-- CRYPT_TIME_GET_DIGITS starting from zero. -/
def getDigits (bs : List Nat) (numDigits : Nat) : Except Err (Nat × List Nat) :=
  getDigitsAux 0 bs numDigits

/-- CRYPT_AsnDecodeTimeZone: an optional trailing +HHMM / -HHMM / +HH /
-HH.  Hours of 24 or more and minutes of 60 or more are corrupt; a plus
offset is added to the parsed wall clock, a minus offset subtracted with
the primitive borrow into the hour and day fields the source performs.
Without at least three remaining bytes or a sign, the time is returned
unchanged. -/
def CRYPT_AsnDecodeTimeZone (bs : List Nat) (st : SYSTEMTIME) : Except Err SYSTEMTIME :=
  if 3 ≤ bs.length ∧ (bs.headD 0 = 43 ∨ bs.headD 0 = 45) then
    match getDigits (bs.drop 1) 2 with
    | .error e => .error e
    | .ok (hours, bs₁) =>
        if hours ≥ 24 then .error .corrupt
        else
          match (if 2 ≤ bs₁.length then getDigits bs₁ 2 else .ok (0, bs₁)) with
          | .error e => .error e
          | .ok (minutes, _) =>
              if minutes ≥ 60 then .error .corrupt
              else if bs.headD 0 = 43 then
                .ok { st with wHour := st.wHour + hours, wMinute := st.wMinute + minutes }
              else
                let dayHour :=
                  if hours > st.wHour then (st.wDay - 1, 24 - (hours - st.wHour))
                  else (st.wDay, st.wHour - hours)
                let hourMin :=
                  if minutes > st.wMinute then (dayHour.2 - 1, 60 - (minutes - st.wMinute))
                  else (dayHour.2, st.wMinute - minutes)
                .ok { st with wDay := dayHour.1, wHour := hourMin.1, wMinute := hourMin.2 }
  else .ok st

/-- Content parse of CRYPT_AsnDecodeUtcTime: two-digit year mapped to
1900 + yy for yy of 50 and above and to 2000 + yy below, then month,
day, hour, minute, an optional one- or two-digit second, and the
optional time zone. -/
def utcTimeParse (bs0 : List Nat) : Except Err SYSTEMTIME :=
  match getDigits bs0 2 with
  | .error e => .error e
  | .ok (yy, bs) =>
    let year := if yy ≥ 50 then yy + 1900 else yy + 2000
    match getDigits bs 2 with
    | .error e => .error e
    | .ok (mon, bs) =>
      match getDigits bs 2 with
      | .error e => .error e
      | .ok (day, bs) =>
        match getDigits bs 2 with
        | .error e => .error e
        | .ok (hour, bs) =>
          match getDigits bs 2 with
          | .error e => .error e
          | .ok (minute, bs) =>
            let st : SYSTEMTIME := ⟨year, mon, day, hour, minute, 0, 0⟩
            if bs.length > 0 then
              match
                (if 2 ≤ bs.length ∧ isAsciiDigit (bs.getD 0 0) ∧ isAsciiDigit (bs.getD 1 0) then
                  getDigits bs 2
                 else if isAsciiDigit (bs.getD 0 0) then getDigits bs 1
                 else .ok (0, bs)) with
              | .error e => .error e
              | .ok (second, bs₁) =>
                  CRYPT_AsnDecodeTimeZone bs₁ { st with wSecond := second }
            else .ok st

/-- CRYPT_AsnDecodeUtcTime.  After the null and Phase A branches: tag
0x17, short-form length octet of at least MIN_ENCODED_TIME_LENGTH = 10,
then the positional parse of exactly len content bytes (bytes past the
end of the buffer read as zero, as the C reads whatever follows), then
CRYPT_DecodeEnsureSpace for sizeof(FILETIME) = 8. -/
def CRYPT_AsnDecodeUtcTime (input : List Nat) (pv : Bool) (cell : Nat) : Except Err DecOut :=
  if input.length = 0 then .error .eod
  else if pv = false then .ok (.sized 8)
  else if byteAt input 0 ≠ 0x17 then .error .badTag
  else if input.length ≤ 1 then .error .eod
  else if byteAt input 1 > 0x7f then .error .corrupt
  else if byteAt input 1 < 10 then .error .corrupt
  else
    match utcTimeParse ((List.range (byteAt input 1)).map (fun i => byteAt input (2 + i))) with
    | .error e => .error e
    | .ok st => if cell < 8 then .error .moreData else .ok (.time st)

/-- Content parse of CRYPT_AsnDecodeGeneralizedTime: four-digit year,
month, day, hour; then optionally minute, second, a fractional part of
up to three digits introduced by a dot or comma (read as milliseconds),
and the time zone. -/
def generalizedTimeParse (bs0 : List Nat) : Except Err SYSTEMTIME :=
  match getDigits bs0 4 with
  | .error e => .error e
  | .ok (year, bs) =>
    match getDigits bs 2 with
    | .error e => .error e
    | .ok (mon, bs) =>
      match getDigits bs 2 with
      | .error e => .error e
      | .ok (day, bs) =>
        match getDigits bs 2 with
        | .error e => .error e
        | .ok (hour, bs) =>
          let st : SYSTEMTIME := ⟨year, mon, day, hour, 0, 0, 0⟩
          if bs.length > 0 then
            match getDigits bs 2 with
            | .error e => .error e
            | .ok (minute, bs) =>
              match (if bs.length > 0 then getDigits bs 2 else .ok (0, bs)) with
              | .error e => .error e
              | .ok (second, bs) =>
                match
                  (if bs.length > 0 ∧ (bs.headD 0 = 46 ∨ bs.headD 0 = 44) then
                    getDigits (bs.drop 1) (min (bs.length - 1) 3)
                   else .ok (0, bs)) with
                | .error e => .error e
                | .ok (ms, bs) =>
                    CRYPT_AsnDecodeTimeZone bs
                      { st with wMinute := minute, wSecond := second, wMilliseconds := ms }
          else .ok st

/-- CRYPT_AsnDecodeGeneralizedTime: as the UTCTime decoder but for tag
0x18 and the generalized-time positional parse. -/
def CRYPT_AsnDecodeGeneralizedTime (input : List Nat) (pv : Bool) (cell : Nat) :
    Except Err DecOut :=
  if input.length = 0 then .error .eod
  else if pv = false then .ok (.sized 8)
  else if byteAt input 0 ≠ 0x18 then .error .badTag
  else if input.length ≤ 1 then .error .eod
  else if byteAt input 1 > 0x7f then .error .corrupt
  else if byteAt input 1 < 10 then .error .corrupt
  else
    match
      generalizedTimeParse ((List.range (byteAt input 1)).map (fun i => byteAt input (2 + i)))
    with
    | .error e => .error e
    | .ok st => if cell < 8 then .error .moreData else .ok (.time st)

/-- CRYPT_AsnDecodeChoiceOfTime: after its own null and Phase A
branches, dispatches on the tag byte to the UTCTime or GeneralizedTime
decoder and rejects any other tag. -/
def CRYPT_AsnDecodeChoiceOfTime (input : List Nat) (pv : Bool) (cell : Nat) :
    Except Err DecOut :=
  if input.length = 0 then .error .eod
  else if pv = false then .ok (.sized 8)
  else if byteAt input 0 = 0x17 then CRYPT_AsnDecodeUtcTime input pv cell
  else if byteAt input 0 = 0x18 then CRYPT_AsnDecodeGeneralizedTime input pv cell
  else .error .badTag

/-- One value written to the registry store by the register operation:
the optional FuncName override string and the Dll module name.  The key
creation itself carries no data beyond the lookup triple and is not
recorded separately. -/
inductive RegWrite where
  | overrideFuncName (s : List Nat)
  | dllName (s : List Nat)
  deriving DecidableEq, Repr

/-- CryptRegisterOIDFunction.  GET_CERT_ENCODING_TYPE masks the encoding
type with CERT_ENCODING_TYPE_MASK = 0xffff; a zero result means the
family is not a certificate family and the call silently succeeds.  A
null module name (the spec's empty moduleName) also silently succeeds.
Only then are a null function name or OID rejected with
ERROR_INVALID_PARAMETER.  Otherwise the registry store (an external
capability, modelled as succeeding) receives the optional FuncName
override and the Dll value. -/
def CryptRegisterOIDFunction (dwEncodingType : Nat)
    (pszFuncName pszOID : Option (List Nat)) (pwszDll : Option (List Nat))
    (pszOverrideFuncName : Option (List Nat)) : Except Err (List RegWrite) :=
  if dwEncodingType &&& 0xffff = 0 then .ok []
  else
    match pwszDll with
    | none => .ok []
    | some dll =>
        if pszFuncName = none ∨ pszOID = none then .error .invalidParameter
        else
          .ok ((match pszOverrideFuncName with
                 | some s => [RegWrite.overrideFuncName s]
                 | none => []) ++ [RegWrite.dllName dll])

/-- Structure identifier passed to the dispatch façades: either a small
integer (HIWORD zero) drawn from the switch in the Ex functions, or an
OID string matched against the well-known OIDs.  The numeric values and
OID spellings live in external headers; the labels here mirror the
switch and strcmp cases of the source one for one, with otherNum and
otherOid covering every unhandled identifier. -/
inductive StructId where
  | x509Name
  | x509OctetString
  | x509Bits
  | x509KeyUsage
  | x509Integer
  | x509MultiByteInteger
  | x509MultiByteUInt
  | x509Enumerated
  | x509ChoiceOfTime
  | pkcsUtcTime
  | otherNum (w : Nat)
  | oidSigningTime
  | oidCrlReasonCode
  | oidKeyUsage
  | oidSubjectKeyIdentifier
  | otherOid (s : List Nat)
  deriving DecidableEq, Repr

/-- Built-in codecs selectable by the dispatchers (each name stands for
the CRYPT_AsnEncode / CRYPT_AsnDecode pair of that structure). -/
inductive CodecId where
  | name
  | octets
  | bits
  | int
  | integer
  | uint
  | enumerated
  | choiceOfTime
  | utcTime
  deriving DecidableEq, Repr

/-- Outcome of a dispatch façade call, up to handing the arguments to a
codec: the built-in codec selected and invoked, a registry-resolved
plugin function invoked, or the façade's own failure. -/
inductive DispatchResult where
  | invalidParameter
  | notFound
  | builtin (c : CodecId)
  | plugin
  deriving DecidableEq, Repr

/-- Built-in encoder selection of CryptEncodeObjectEx (the switch on the
numeric identifier and the strcmp chain on the OID string). -/
def CRYPT_EncodeFuncFor : StructId → Option CodecId
  | .x509Name => some .name
  | .x509OctetString => some .octets
  | .x509Bits => some .bits
  | .x509KeyUsage => some .bits
  | .x509Integer => some .int
  | .x509MultiByteInteger => some .integer
  | .x509MultiByteUInt => some .uint
  | .x509Enumerated => some .enumerated
  | .x509ChoiceOfTime => some .choiceOfTime
  | .pkcsUtcTime => some .utcTime
  | .oidSigningTime => some .utcTime
  | .oidCrlReasonCode => some .enumerated
  | .oidKeyUsage => some .bits
  | .oidSubjectKeyIdentifier => some .octets
  | .otherNum _ => none
  | .otherOid _ => none

/-- Built-in decoder selection of CryptDecodeObjectEx; the table mirrors
the encoder selection case for case. -/
def CRYPT_DecodeFuncFor : StructId → Option CodecId := CRYPT_EncodeFuncFor

/-- CryptEncodeObjectEx.  pvEncoded and pcbEncoded are true when the
corresponding pointer is non-null; registryEx tells whether the external
registry has a CryptEncodeObjectEx entry for the identifier (the
resolved plugin function is external).  Both pointers null is
ERROR_INVALID_PARAMETER; an encoding type that is neither
X509_ASN_ENCODING (1) under CERT_ENCODING_TYPE_MASK (0xffff) nor
PKCS_7_ASN_ENCODING (0x10000) under CMSG_ENCODING_TYPE_MASK
(0xffff0000) is ERROR_FILE_NOT_FOUND; then the built-in table is
consulted and the registry is the fallback. -/
def CryptEncodeObjectEx (dwCertEncodingType : Nat) (lpszStructType : StructId)
    (pvEncoded pcbEncoded : Bool) (registryEx : Bool) : DispatchResult :=
  if pvEncoded = false ∧ pcbEncoded = false then .invalidParameter
  else if dwCertEncodingType &&& 0xffff ≠ 1 ∧
      dwCertEncodingType &&& 0xffff0000 ≠ 0x10000 then .notFound
  else
    match CRYPT_EncodeFuncFor lpszStructType with
    | some c => .builtin c
    | none => if registryEx then .plugin else .notFound

/-- CryptEncodeObject (the simple variant): after the same two-null
parameter check it first consults the registry for a CryptEncodeObject
entry and otherwise forwards every argument to CryptEncodeObjectEx. -/
def CryptEncodeObject (dwCertEncodingType : Nat) (lpszStructType : StructId)
    (pbEncoded pcbEncoded : Bool) (registrySimple registryEx : Bool) : DispatchResult :=
  if pbEncoded = false ∧ pcbEncoded = false then .invalidParameter
  else if registrySimple then .plugin
  else CryptEncodeObjectEx dwCertEncodingType lpszStructType pbEncoded pcbEncoded registryEx

/-- CryptDecodeObjectEx: the decode façade, same shape as the encode
façade with the decoder table. -/
def CryptDecodeObjectEx (dwCertEncodingType : Nat) (lpszStructType : StructId)
    (pvStructInfo pcbStructInfo : Bool) (registryEx : Bool) : DispatchResult :=
  if pvStructInfo = false ∧ pcbStructInfo = false then .invalidParameter
  else if dwCertEncodingType &&& 0xffff ≠ 1 ∧
      dwCertEncodingType &&& 0xffff0000 ≠ 0x10000 then .notFound
  else
    match CRYPT_DecodeFuncFor lpszStructType with
    | some c => .builtin c
    | none => if registryEx then .plugin else .notFound

theorem BLOBComp_eq_iff : ∀ a b : List Nat, BLOBComp a b = Ordering.eq ↔ a = b
  | [], [] => by simp [BLOBComp]
  | [], _ :: _ => by simp [BLOBComp]
  | _ :: _, [] => by simp [BLOBComp]
  | x :: xs, y :: ys => by
      rw [BLOBComp]
      rcases Nat.lt_trichotomy x y with h | h | h
      · rw [if_pos h]
        simp only [List.cons.injEq]
        constructor
        · intro hc; cases hc
        · rintro ⟨h1, -⟩; omega
      · subst h
        rw [if_neg (lt_irrefl x), if_neg (lt_irrefl x)]
        rw [BLOBComp_eq_iff xs ys]
        simp
      · rw [if_neg (by omega), if_pos h]
        simp only [List.cons.injEq]
        constructor
        · intro hc; cases hc
        · rintro ⟨h1, -⟩; omega

theorem BLOBComp_swap : ∀ a b : List Nat, BLOBComp b a = (BLOBComp a b).swap
  | [], [] => rfl
  | [], _ :: _ => rfl
  | _ :: _, [] => rfl
  | x :: xs, y :: ys => by
      rw [BLOBComp, BLOBComp]
      rcases Nat.lt_trichotomy x y with h | h | h
      · rw [if_neg (by omega), if_pos h, if_pos h]; rfl
      · subst h
        rw [if_neg (lt_irrefl x), if_neg (lt_irrefl x), if_neg (lt_irrefl x),
          if_neg (lt_irrefl x)]
        exact BLOBComp_swap xs ys
      · rw [if_pos h, if_neg (by omega), if_pos h]; rfl

theorem blobLe_nil (c : List Nat) : blobLe [] c := by
  cases c <;> simp [blobLe, BLOBComp]

theorem blobLe_total (a b : List Nat) : blobLe a b ∨ blobLe b a := by
  unfold blobLe
  rw [BLOBComp_swap a b]
  cases BLOBComp a b <;> simp [Ordering.swap]

theorem blobLe_antisymm : ∀ a b : List Nat, blobLe a b → blobLe b a → a = b := by
  intro a b hab hba
  unfold blobLe at hab hba
  rw [BLOBComp_swap a b] at hba
  rw [← BLOBComp_eq_iff]
  cases h : BLOBComp a b
  · rw [h] at hba; exact absurd rfl hba
  · rfl
  · rw [h] at hab; exact absurd rfl hab

theorem blobLe_trans : ∀ a b c : List Nat, blobLe a b → blobLe b c → blobLe a c
  | [], _, c, _, _ => blobLe_nil c
  | _ :: _, [], _, hab, _ => absurd rfl hab
  | _ :: _, _ :: _, [], _, hbc => absurd rfl hbc
  | x :: xs, y :: ys, z :: zs, hab, hbc => by
      unfold blobLe at hab hbc ⊢
      rw [BLOBComp] at hab hbc ⊢
      have hxy : ¬ y < x := by
        intro h; rw [if_neg (by omega), if_pos h] at hab; exact hab rfl
      have hyz : ¬ z < y := by
        intro h; rw [if_neg (by omega), if_pos h] at hbc; exact hbc rfl
      rcases Nat.lt_trichotomy x z with h | h | h
      · rw [if_pos h]; intro hc; cases hc
      · subst h
        have hx : x = y := by omega
        subst hx
        rw [if_neg (lt_irrefl x)] at hab hbc ⊢
        rw [if_neg (lt_irrefl x)] at hab hbc ⊢
        exact blobLe_trans xs ys zs hab hbc
      · omega

instance : IsTotal (List Nat) blobLe := ⟨blobLe_total⟩

instance : IsTrans (List Nat) blobLe := ⟨blobLe_trans⟩

instance : IsAntisymm (List Nat) blobLe := ⟨blobLe_antisymm⟩

/-- Sorting a list of blobs depends only on the multiset of blobs: the
comparator is total, transitive, and antisymmetric (ties in BLOBComp are
literal equality of byte strings), so the sorted output is unique. -/
theorem blobSort_perm_invariant {l₁ l₂ : List (List Nat)} (h : l₁.Perm l₂) :
    blobSort l₁ = blobSort l₂ := by
  unfold blobSort
  exact List.eq_of_perm_of_sorted
    ((List.perm_insertionSort blobLe l₁).trans
      (h.trans (List.perm_insertionSort blobLe l₂).symm))
    (List.sorted_insertionSort blobLe l₁) (List.sorted_insertionSort blobLe l₂)

/-- Bytes an attribute encodes to on the success path (the error case is
never reached when the surrounding RDN encode succeeds). -/
def encAttrBytes (a : CERT_RDN_ATTR) : List Nat :=
  match CRYPT_AsnEncodeRdnAttr a with
  | .ok b => b
  | .error _ => []

theorem rdnBlobs_eq_map :
    ∀ rdn bs, rdnBlobs rdn = .ok bs → bs = rdn.map encAttrBytes
  | [], bs, h => by
      simp only [rdnBlobs] at h
      cases h; rfl
  | attr :: rest, bs, h => by
      simp only [rdnBlobs] at h
      cases ha : CRYPT_AsnEncodeRdnAttr attr with
      | error e => rw [ha] at h; cases h
      | ok b =>
          rw [ha] at h
          cases hr : rdnBlobs rest with
          | error e => rw [hr] at h; cases h
          | ok bs' =>
              rw [hr] at h
              cases h
              simp only [List.map_cons, encAttrBytes, ha]
              rw [rdnBlobs_eq_map rest bs' hr]

theorem rdnBlobs_all_ok :
    ∀ rdn bs, rdnBlobs rdn = .ok bs → ∀ a ∈ rdn, ∃ b, CRYPT_AsnEncodeRdnAttr a = .ok b
  | [], _, _, a, ha => absurd ha (List.not_mem_nil a)
  | attr :: rest, bs, h, a, ha => by
      simp only [rdnBlobs] at h
      cases hh : CRYPT_AsnEncodeRdnAttr attr with
      | error e => rw [hh] at h; cases h
      | ok b =>
          rw [hh] at h
          cases hr : rdnBlobs rest with
          | error e => rw [hr] at h; cases h
          | ok bs' =>
              rcases List.mem_cons.mp ha with rfl | ha'
              · exact ⟨b, hh⟩
              · exact rdnBlobs_all_ok rest bs' hr a ha'

theorem rdnBlobs_of_all_ok :
    ∀ rdn, (∀ a ∈ rdn, ∃ b, CRYPT_AsnEncodeRdnAttr a = .ok b) →
      rdnBlobs rdn = .ok (rdn.map encAttrBytes)
  | [], _ => rfl
  | attr :: rest, h => by
      obtain ⟨b, hb⟩ := h attr (List.mem_cons_self attr rest)
      simp only [rdnBlobs, hb, List.map_cons]
      rw [rdnBlobs_of_all_ok rest (fun a ha => h a (List.mem_cons_of_mem attr ha))]
      simp [encAttrBytes, hb]

/-- C2: for every RDN value and every permutation of its attribute
array, the SET OF encoder produces bit-identical output: each attribute
is encoded into its own scratch blob, the blobs are sorted with the
BLOBComp byte comparison (shorter is less on a tie), and the sorted
blobs are concatenated under the CONSTRUCTED SET OF tag, so any two
permutations of the same attributes that encode successfully yield the
same bytes. -/
theorem rdn_encode_permutation_invariant (rdn₁ rdn₂ : List CERT_RDN_ATTR)
    (hperm : rdn₁.Perm rdn₂) (out : List Nat)
    (h : CRYPT_AsnEncodeRdn rdn₁ = .ok out) : CRYPT_AsnEncodeRdn rdn₂ = .ok out := by
  unfold CRYPT_AsnEncodeRdn at h ⊢
  cases h1 : rdnBlobs rdn₁ with
  | error e => rw [h1] at h; cases h
  | ok blobs₁ =>
      rw [h1] at h
      have hall : ∀ a ∈ rdn₂, ∃ b, CRYPT_AsnEncodeRdnAttr a = .ok b := fun a ha =>
        rdnBlobs_all_ok rdn₁ blobs₁ h1 a (hperm.mem_iff.mpr ha)
      rw [rdnBlobs_of_all_ok rdn₂ hall]
      have hmap := rdnBlobs_eq_map rdn₁ blobs₁ h1
      have hblobs : blobs₁.Perm (rdn₂.map encAttrBytes) := by
        rw [hmap]; exact hperm.map encAttrBytes
      have hsum : (blobs₁.map List.length).sum = ((rdn₂.map encAttrBytes).map List.length).sum :=
        (hblobs.map List.length).sum_eq
      dsimp only at h ⊢
      rw [← hsum, ← blobSort_perm_invariant hblobs]
      exact h

/-- Concrete pair of attributes for exercising the RDN encoder: CN=Test
and O=Ex with printable-string values. -/
def rdnAttrCN : CERT_RDN_ATTR := ⟨some ⟨2, 5, [4, 3]⟩, .printable, [84, 101, 115, 116]⟩

/-- Second concrete attribute for the RDN encoder. -/
def rdnAttrO : CERT_RDN_ATTR := ⟨some ⟨2, 5, [4, 10]⟩, .printable, [69, 120]⟩

theorem rdn_encode_permutation_invariant_witness :
    CRYPT_AsnEncodeRdn [rdnAttrO, rdnAttrCN] =
      .ok [49, 24, 48, 9, 6, 3, 85, 4, 10, 19, 2, 69, 120,
           48, 11, 6, 3, 85, 4, 3, 19, 4, 84, 101, 115, 116] :=
  rdn_encode_permutation_invariant [rdnAttrCN, rdnAttrO] [rdnAttrO, rdnAttrCN]
    (List.Perm.swap rdnAttrO rdnAttrCN []) _ (by decide)

/-- C1: evaluation of the OID encoder's Phase B capacity handling.  For
OID 1.2 (bytesNeeded 3): with ample capacity 100 but a zero first
content byte in the output buffer the call fails with ERROR_MORE_DATA,
and with capacity 0 but a 0xff first content byte it succeeds and
writes 3 bytes, because the source tests the first content byte
*pbEncoded instead of the size cell *pcbEncoded against bytesNeeded. -/
theorem oid_encode_capacity_check_eval :
    CRYPT_AsnEncodeOid (some ⟨1, 2, []⟩) (some [0, 0, 0]) 100 = (.error .moreData, 3) ∧
    CRYPT_AsnEncodeOid (some ⟨1, 2, []⟩) (some [255, 0, 0]) 0 =
      (.ok (.written [6, 1, 42]), 3) := by
  exact ⟨rfl, rfl⟩

/-- C3: evaluation of the length decoder at two well-formed long-form
inputs.  The element 04 84 00 00 00 01 99 (four length bytes stating
contents length 1, all bytes present) is rejected as TooLarge because
the code compares 1 + n against sizeof(DWORD); the element 02 81 01 2A
(one length byte stating contents length 1, all bytes present) fails
with EndOfData because the loop consumes n + 1 bytes and the fit check
adds the wrapped loop counter. -/
theorem getlen_long_form_eval :
    CRYPT_GetLen [4, 132, 0, 0, 0, 1, 153] = .error .tooLarge ∧
    CRYPT_GetLen [2, 129, 1, 42] = .error .eod := by
  exact ⟨rfl, rfl⟩

/-- C4: evaluation of the UTCTime encoder at 2015-04-15T00:00:00Z.  The
output is tag 17, length 0D, then the characters 151504000000Z: the
formatter prints wDay before wMonth, so the spec's expected bytes
17 0D 31 35 30 34 31 35 30 30 30 30 30 30 5A (150415000000Z) are not
produced. -/
theorem utc_encode_eval_20150415 :
    CRYPT_AsnEncodeUtcTime ⟨2015, 4, 15, 0, 0, 0, 0⟩ true 100 =
      .ok (.written [0x17, 0x0d, 0x31, 0x35, 0x31, 0x35, 0x30, 0x34,
        0x30, 0x30, 0x30, 0x30, 0x30, 0x30, 0x5a]) := rfl

/-- C6: evaluation of the bit-string encoder at bytes FF FF with 15
unused trailing bits.  The encoder emits 03 02 01 FE: one content byte
(which matches ceil((16 - 15) / 8) = 1 here), but a wire unused-bits
octet of cUnusedBits / 8 = 1 where the canonical value is
cUnusedBits mod 8 = 7, and accordingly masks with 0xFE instead of 0x80. -/
theorem bits_encode_eval_unused15 :
    CRYPT_AsnEncodeBits ⟨[0xff, 0xff], 15⟩ true 100 =
      .ok (.written [0x03, 0x02, 0x01, 0xfe]) ∧ 15 % 8 = 7 := by
  exact ⟨rfl, rfl⟩

/-- C7: for every timestamp whose year is below 1950 or above 2050, the
UTCTime encoder fails with CRYPT_E_BAD_ENCODE before reaching either
phase, so nothing is written and no size is reported. -/
theorem utc_encode_rejects_out_of_range_year (st : SYSTEMTIME) (pb : Bool) (cell : Nat)
    (h : st.wYear < 1950 ∨ st.wYear > 2050) :
    CRYPT_AsnEncodeUtcTime st pb cell = .error .badEncode := by
  unfold CRYPT_AsnEncodeUtcTime
  rw [if_pos h]

theorem utc_encode_rejects_out_of_range_year_witness :
    CRYPT_AsnEncodeUtcTime ⟨1949, 12, 31, 23, 59, 59, 0⟩ true 100 = .error .badEncode ∧
    CRYPT_AsnEncodeUtcTime ⟨2051, 1, 1, 0, 0, 0, 0⟩ false 0 = .error .badEncode :=
  ⟨utc_encode_rejects_out_of_range_year _ _ _ (Or.inl (by decide)),
   utc_encode_rejects_out_of_range_year _ _ _ (Or.inr (by decide))⟩

/-- C8: the register operation succeeds without any store write when the
encoding type has no certificate family bits or when the module name is
absent, and only otherwise rejects a missing function name or OID with
ERROR_INVALID_PARAMETER. -/
theorem register_oid_function_guards (dw : Nat) (fn oid dll ov : Option (List Nat)) :
    ((dw &&& 0xffff = 0 ∨ dll = none) →
      CryptRegisterOIDFunction dw fn oid dll ov = .ok []) ∧
    (dw &&& 0xffff ≠ 0 → dll ≠ none → (fn = none ∨ oid = none) →
      CryptRegisterOIDFunction dw fn oid dll ov = .error .invalidParameter) := by
  unfold CryptRegisterOIDFunction
  constructor
  · rintro (h | h)
    · rw [if_pos h]
    · subst h
      by_cases hdw : dw &&& 0xffff = 0
      · rw [if_pos hdw]
      · rw [if_neg hdw]
  · intro h1 h2 h3
    rw [if_neg h1]
    cases dll with
    | none => exact absurd rfl h2
    | some d => exact if_pos h3

theorem register_oid_function_guards_witness :
    CryptRegisterOIDFunction 0x20000 (some [70]) (some [49]) (some [68]) none = .ok [] ∧
    CryptRegisterOIDFunction 1 none (some [49]) (some [68]) none = .error .invalidParameter :=
  ⟨(register_oid_function_guards 0x20000 (some [70]) (some [49]) (some [68]) none).1
      (Or.inl (by decide)),
   (register_oid_function_guards 1 none (some [49]) (some [68]) none).2
      (by decide) (by decide) (Or.inl rfl)⟩

/-- C10: every Phase A sizing call (null output pointer) of the
fixed-width integer, enumerated, UTCTime, GeneralizedTime, and
ChoiceOfTime decoders on a non-empty input succeeds with the fixed size
4 (sizeof int) for the integer kinds and 8 (sizeof FILETIME) for the
time kinds, whatever the tag, length octets and content are and
whatever the size cell holds. -/
theorem decoders_phaseA_fixed_size (input : List Nat) (h : input ≠ []) (cell : Nat) :
    CRYPT_AsnDecodeInt input false cell = .ok (.sized 4) ∧
    CRYPT_AsnDecodeEnumerated input false cell = .ok (.sized 4) ∧
    CRYPT_AsnDecodeUtcTime input false cell = .ok (.sized 8) ∧
    CRYPT_AsnDecodeGeneralizedTime input false cell = .ok (.sized 8) ∧
    CRYPT_AsnDecodeChoiceOfTime input false cell = .ok (.sized 8) := by
  have hlen : input.length ≠ 0 := by simpa using h
  refine ⟨?_, ?_, ?_, ?_, ?_⟩ <;>
    simp [CRYPT_AsnDecodeInt, CRYPT_AsnDecodeEnumerated, CRYPT_AsnDecodeUtcTime,
      CRYPT_AsnDecodeGeneralizedTime, CRYPT_AsnDecodeChoiceOfTime, hlen]

theorem decoders_phaseA_fixed_size_witness :
    CRYPT_AsnDecodeInt [0] false 0 = .ok (.sized 4) ∧
    CRYPT_AsnDecodeEnumerated [0] false 0 = .ok (.sized 4) ∧
    CRYPT_AsnDecodeUtcTime [0] false 0 = .ok (.sized 8) ∧
    CRYPT_AsnDecodeGeneralizedTime [0] false 0 = .ok (.sized 8) ∧
    CRYPT_AsnDecodeChoiceOfTime [0] false 0 = .ok (.sized 8) :=
  decoders_phaseA_fixed_size [0] (by decide) 0

theorem cryptEncodeObjectEx_ne_invalidParameter (dw : Nat) (id : StructId)
    (pb pcb r : Bool) (h : ¬(pb = false ∧ pcb = false)) :
    CryptEncodeObjectEx dw id pb pcb r ≠ .invalidParameter := by
  unfold CryptEncodeObjectEx
  rw [if_neg h]
  split
  · intro hc; cases hc
  · cases hfor : CRYPT_EncodeFuncFor id with
    | some c => simp [hfor]
    | none =>
        simp only [hfor]
        cases r <;> simp

theorem cryptDecodeObjectEx_ne_invalidParameter (dw : Nat) (id : StructId)
    (pv pcb r : Bool) (h : ¬(pv = false ∧ pcb = false)) :
    CryptDecodeObjectEx dw id pv pcb r ≠ .invalidParameter := by
  unfold CryptDecodeObjectEx
  rw [if_neg h]
  split
  · intro hc; cases hc
  · cases hfor : CRYPT_DecodeFuncFor id with
    | some c => simp [hfor]
    | none =>
        simp only [hfor]
        cases r <;> simp

/-- C9: the public encode and decode façades fail with
ERROR_INVALID_PARAMETER exactly when the output pointer and the size
cell are both null; with a non-null output buffer and a null size cell
the parameter check passes, and whenever a built-in codec is selected
(recognized encoding family, identifier in the built-in table, registry
not consulted first for the simple variant) the call is forwarded to
that codec. -/
theorem dispatch_param_check (dw : Nat) (id : StructId) (pb pcb r1 r2 : Bool) :
    (CryptEncodeObject dw id pb pcb r1 r2 = .invalidParameter ↔
      pb = false ∧ pcb = false) ∧
    (CryptEncodeObjectEx dw id pb pcb r2 = .invalidParameter ↔
      pb = false ∧ pcb = false) ∧
    (CryptDecodeObjectEx dw id pb pcb r2 = .invalidParameter ↔
      pb = false ∧ pcb = false) ∧
    (pb = true → pcb = false →
      (dw &&& 0xffff = 1 ∨ dw &&& 0xffff0000 = 0x10000) →
      ∀ c, CRYPT_EncodeFuncFor id = some c →
        CryptEncodeObjectEx dw id pb pcb r2 = .builtin c ∧
        CryptDecodeObjectEx dw id pb pcb r2 = .builtin c ∧
        (r1 = false → CryptEncodeObject dw id pb pcb r1 r2 = .builtin c)) := by
  refine ⟨?_, ?_, ?_, ?_⟩
  · constructor
    · intro h
      by_cases hA : pb = false ∧ pcb = false
      · exact hA
      · exfalso
        unfold CryptEncodeObject at h
        rw [if_neg hA] at h
        cases r1 with
        | true => simp at h
        | false =>
            simp only [Bool.false_eq_true, if_false] at h
            exact cryptEncodeObjectEx_ne_invalidParameter dw id pb pcb r2 hA h
    · rintro ⟨h1, h2⟩
      subst h1; subst h2
      rfl
  · constructor
    · intro h
      by_cases hA : pb = false ∧ pcb = false
      · exact hA
      · exact absurd h (cryptEncodeObjectEx_ne_invalidParameter dw id pb pcb r2 hA)
    · rintro ⟨h1, h2⟩
      subst h1; subst h2
      rfl
  · constructor
    · intro h
      by_cases hA : pb = false ∧ pcb = false
      · exact hA
      · exact absurd h (cryptDecodeObjectEx_ne_invalidParameter dw id pb pcb r2 hA)
    · rintro ⟨h1, h2⟩
      subst h1; subst h2
      rfl
  · intro hpb hpcb hfam c hc
    subst hpb; subst hpcb
    have hA : ¬(true = false ∧ false = false) := by simp
    have hB : ¬(dw &&& 0xffff ≠ 1 ∧ dw &&& 0xffff0000 ≠ 0x10000) := by
      rcases hfam with h | h <;> simp [h]
    have hEx : CryptEncodeObjectEx dw id true false r2 = .builtin c := by
      unfold CryptEncodeObjectEx
      rw [if_neg hA, if_neg hB, hc]
    have hDecFor : CRYPT_DecodeFuncFor id = some c := hc
    refine ⟨hEx, ?_, ?_⟩
    · unfold CryptDecodeObjectEx
      rw [if_neg hA, if_neg hB, hDecFor]
    · intro hr1
      subst hr1
      unfold CryptEncodeObject
      rw [if_neg hA]
      simpa using hEx

theorem dispatch_param_check_witness :
    CryptEncodeObjectEx 1 .x509Name true false false = .builtin .name ∧
    CryptDecodeObjectEx 1 .x509Name true false false = .builtin .name ∧
    CryptEncodeObject 1 .x509Name true false false false = .builtin .name :=
  have h := (dispatch_param_check 1 .x509Name true false false false).2.2.2
    rfl rfl (Or.inl (by decide)) .name rfl
  ⟨h.1, h.2.1, h.2.2 rfl⟩

theorem byteAt_lt (input : List Nat) (i : Nat) : byteAt input i < 256 :=
  Nat.mod_lt _ (by norm_num)

theorem loadWord_eq (input : List Nat) :
    ∀ (len pos acc : Nat), acc < 2 ^ 32 →
      loadWord input pos len acc = (acc * 2 ^ (8 * len) + beVal input pos len) % 2 ^ 32
  | 0, pos, acc, hacc => by
      simp [loadWord, beVal]
      omega
  | n + 1, pos, acc, _ => by
      rw [loadWord, beVal]
      rw [loadWord_eq input n (pos + 1) _ (Nat.mod_lt _ (by positivity))]
      have h2 : (acc * 256 + byteAt input pos) * 2 ^ (8 * n) + beVal input (pos + 1) n =
          acc * 2 ^ (8 * (n + 1)) +
            (byteAt input pos * 2 ^ (8 * n) + beVal input (pos + 1) n) := by
        have h8 : 2 ^ (8 * (n + 1)) = 2 ^ (8 * n) * 256 := by
          rw [Nat.mul_succ, pow_add]; norm_num
        rw [h8]; ring
      calc ((acc * 256 + byteAt input pos) % 2 ^ 32) * 2 ^ (8 * n) + beVal input (pos + 1) n ≡
          (acc * 256 + byteAt input pos) * 2 ^ (8 * n) + beVal input (pos + 1) n [MOD 2 ^ 32] :=
            ((Nat.mod_modEq _ _).mul_right _).add_right _
        _ = acc * 2 ^ (8 * (n + 1)) +
            (byteAt input pos * 2 ^ (8 * n) + beVal input (pos + 1) n) := h2

theorem beVal_lt (input : List Nat) : ∀ (len pos : Nat), beVal input pos len < 2 ^ (8 * len)
  | 0, pos => by simp [beVal]
  | n + 1, pos => by
      rw [beVal]
      have hr := beVal_lt input n (pos + 1)
      have h8 : 2 ^ (8 * (n + 1)) = 256 * 2 ^ (8 * n) := by
        rw [Nat.mul_succ, pow_add]; ring
      rw [h8]
      calc byteAt input pos * 2 ^ (8 * n) + beVal input (pos + 1) n <
          byteAt input pos * 2 ^ (8 * n) + 2 ^ (8 * n) := by omega
        _ = (byteAt input pos + 1) * 2 ^ (8 * n) := by ring
        _ ≤ 256 * 2 ^ (8 * n) := Nat.mul_le_mul_right _ (byteAt_lt input pos)

theorem beVal_ge_of_high (input : List Nat) (pos n : Nat) (h : 128 ≤ byteAt input pos) :
    2 ^ (8 * n + 7) ≤ beVal input pos (n + 1) := by
  rw [beVal]
  have h8 : 2 ^ (8 * n + 7) = 128 * 2 ^ (8 * n) := by rw [pow_add]; ring
  calc 2 ^ (8 * n + 7) = 128 * 2 ^ (8 * n) := h8
    _ ≤ byteAt input pos * 2 ^ (8 * n) := Nat.mul_le_mul_right _ h
    _ ≤ byteAt input pos * 2 ^ (8 * n) + beVal input (pos + 1) n := Nat.le_add_right _ _

theorem beVal_lt_of_low (input : List Nat) (pos n : Nat) (h : byteAt input pos < 128) :
    beVal input pos (n + 1) < 2 ^ (8 * n + 7) := by
  rw [beVal]
  have hr := beVal_lt input n (pos + 1)
  have h8 : 2 ^ (8 * n + 7) = 128 * 2 ^ (8 * n) := by rw [pow_add]; ring
  rw [h8]
  calc byteAt input pos * 2 ^ (8 * n) + beVal input (pos + 1) n <
      byteAt input pos * 2 ^ (8 * n) + 2 ^ (8 * n) := by omega
    _ = (byteAt input pos + 1) * 2 ^ (8 * n) := by ring
    _ ≤ 128 * 2 ^ (8 * n) := Nat.mul_le_mul_right _ (by omega)

set_option maxRecDepth 4096 in
theorem and128_ne_zero_iff : ∀ b, b < 256 → (b &&& 128 ≠ 0 ↔ 128 ≤ b) := by decide

theorem asnDecodeInt_success_eval (input : List Nat) (cell : Nat)
    (h0 : input.length ≠ 0) (htag : byteAt input 0 = 2) (h1 : ¬ input.length ≤ 1)
    (hne : ¬ byteAt input 1 = 0) (hle : ¬ byteAt input 1 > 4) (hc : ¬ cell < 4) :
    CRYPT_AsnDecodeInt input true cell = .ok (.value (toInt32 (loadWord input 2 (byteAt input 1)
      (if byteAt input 2 &&& 0x80 ≠ 0 then 2 ^ 32 - 1 else 0)))) := by
  unfold CRYPT_AsnDecodeInt
  rw [if_neg h0, if_neg (by simp : ¬(true = false)), if_neg (by simp [htag]), if_neg h1,
    if_neg hne, if_neg hle]
  exact if_neg hc

/-- C5: the fixed-width signed integer decoder in Phase B (non-null
output area, capacity at least sizeof int) on an element with the
INTEGER tag and its content bytes present: a zero content length fails
with Corrupt, a content length above 4 fails with TooLarge, and
otherwise the result is the content bytes read big-endian, sign
extended to a signed 32-bit value when the first content byte has its
high bit set and zero extended otherwise. -/
theorem int_decode_fixed_width (input : List Nat) (cell : Nat)
    (htag : byteAt input 0 = 0x02) (hcell : 4 ≤ cell)
    (havail : 2 + byteAt input 1 ≤ input.length) :
    (byteAt input 1 = 0 → CRYPT_AsnDecodeInt input true cell = .error .corrupt) ∧
    (byteAt input 1 > 4 → CRYPT_AsnDecodeInt input true cell = .error .tooLarge) ∧
    (1 ≤ byteAt input 1 → byteAt input 1 ≤ 4 →
      CRYPT_AsnDecodeInt input true cell = .ok (.value
        (if byteAt input 2 &&& 0x80 ≠ 0 then
          (beVal input 2 (byteAt input 1) : Int) - 2 ^ (8 * byteAt input 1)
         else (beVal input 2 (byteAt input 1) : Int)))) := by
  have hlen0 : input.length ≠ 0 := by omega
  have hlen1 : ¬ input.length ≤ 1 := by omega
  refine ⟨?_, ?_, ?_⟩
  · intro h0
    unfold CRYPT_AsnDecodeInt
    rw [if_neg hlen0, if_neg (by simp : ¬(true = false)), if_neg (by simp [htag]),
      if_neg hlen1, if_pos h0]
  · intro h4
    unfold CRYPT_AsnDecodeInt
    rw [if_neg hlen0, if_neg (by simp : ¬(true = false)), if_neg (by simp [htag]),
      if_neg hlen1, if_neg (by omega), if_pos h4]
  · intro hge1 hle4
    rw [asnDecodeInt_success_eval input cell hlen0 htag hlen1 (by omega) (by omega) (by omega)]
    have hm : ∃ m, byteAt input 1 = m + 1 := ⟨byteAt input 1 - 1, by omega⟩
    obtain ⟨m, hm⟩ := hm
    have hm3 : m ≤ 3 := by omega
    have hP_le : 2 ^ (8 * byteAt input 1) ≤ 2 ^ 32 :=
      Nat.pow_le_pow_right (by norm_num) (by omega)
    have hBE_lt : beVal input 2 (byteAt input 1) < 2 ^ (8 * byteAt input 1) :=
      beVal_lt input (byteAt input 1) 2
    have hPQ : 2 ^ (8 * byteAt input 1) = 2 * 2 ^ (8 * m + 7) := by
      rw [hm, Nat.mul_succ, pow_add]
      ring
    have hQ_le : 2 ^ (8 * m + 7) ≤ 2 ^ 31 :=
      Nat.pow_le_pow_right (by norm_num) (by omega)
    by_cases hs : byteAt input 2 &&& 0x80 ≠ 0
    · have hb2 : 128 ≤ byteAt input 2 := (and128_ne_zero_iff _ (byteAt_lt input 2)).mp hs
      have hBE_ge : 2 ^ (8 * m + 7) ≤ beVal input 2 (byteAt input 1) := by
        rw [hm]; exact beVal_ge_of_high input 2 m hb2
      rw [if_pos hs, if_pos hs]
      have hw : loadWord input 2 (byteAt input 1) (2 ^ 32 - 1) =
          2 ^ 32 - 2 ^ (8 * byteAt input 1) + beVal input 2 (byteAt input 1) := by
        rw [loadWord_eq input (byteAt input 1) 2 (2 ^ 32 - 1) (by norm_num)]
        omega
      rw [hw]
      unfold toInt32
      rw [if_neg (by omega)]
      have hPcast : ((2 ^ (8 * byteAt input 1) : Nat) : Int) =
          (2 : Int) ^ (8 * byteAt input 1) := by
        push_cast
        ring
      rw [← hPcast]
      simp only [Except.ok.injEq, DecOut.value.injEq]
      omega
    · have hb2 : byteAt input 2 < 128 := by
        have := (and128_ne_zero_iff (byteAt input 2) (byteAt_lt input 2))
        omega
      have hBE_low : beVal input 2 (byteAt input 1) < 2 ^ (8 * m + 7) := by
        rw [hm]; exact beVal_lt_of_low input 2 m hb2
      rw [if_neg hs, if_neg hs]
      have hw : loadWord input 2 (byteAt input 1) 0 = beVal input 2 (byteAt input 1) := by
        rw [loadWord_eq input (byteAt input 1) 2 0 (by norm_num)]
        omega
      rw [hw]
      unfold toInt32
      rw [if_pos (by omega)]

theorem int_decode_fixed_width_witness :
    CRYPT_AsnDecodeInt [2, 2, 1, 0] true 4 = .ok (.value 256) := by
  have h := (int_decode_fixed_width [2, 2, 1, 0] 4 (by decide) (by decide)
    (by decide)).2.2 (by decide) (by decide)
  exact h.trans (by decide)
